import Mathlib

/-!
Verification of the Tempo launcher (configuration layering, environment
bridge, addon discovery and registration, route-uniqueness check, command
dispatch, database guard) against its natural-language specification.

The Python sources are shallowly embedded: the `configparser` state is an
association list of sections, each an association list of options
(`configparser` lower-cases option names via `optionxform`; value
interpolation is not used by this program and is not modelled, values are
opaque strings); the process environment is an association list updated in
place; dynamic imports are modelled by an explicit outcome datatype; code
that raises is modelled with `Except` or an explicit error constructor.
Python `str.lower` / `str.upper` act on the ASCII letters, which covers
every key this program manipulates.
-/

set_option linter.unusedVariables false

deriving instance DecidableEq for Except

namespace Tempo

/-! ### ASCII case mapping (Python `str.lower` / `str.upper` on ASCII) -/

/-- Lower-case one character: `A`..`Z` maps to `a`..`z`, all else fixed. -/
def lowerChar (c : Char) : Char :=
  if 65 ≤ c.toNat ∧ c.toNat ≤ 90 then Char.ofNat (c.toNat + 32) else c

/-- Upper-case one character: `a`..`z` maps to `A`..`Z`, all else fixed. -/
def upperChar (c : Char) : Char :=
  if 97 ≤ c.toNat ∧ c.toNat ≤ 122 then Char.ofNat (c.toNat - 32) else c

/-- Lower-case a string (Python `str.lower` restricted to ASCII). -/
def lowerStr (s : String) : String := String.mk (s.data.map lowerChar)

/-- Upper-case a string (Python `str.upper` restricted to ASCII). -/
def upperStr (s : String) : String := String.mk (s.data.map upperChar)

/-- Python `s.startswith(p)`. -/
def strStartsWith (s p : String) : Bool := p.data.isPrefixOf s.data

/-- Python slicing `s[n:]` by characters. -/
def strDropChars (s : String) (n : Nat) : String := String.mk (s.data.drop n)

/-! ### Association lists (dict / `configparser` section semantics) -/

/-- First value bound to a key in an association list. -/
def alookup {α : Type} : String → List (String × α) → Option α
  | _, [] => none
  | k, (k', v) :: t => if k' = k then some v else alookup k t

/-- Bind a key: replace the first binding in place, else append
(dict update semantics, insertion order preserved). -/
def aset {α : Type} (k : String) (v : α) : List (String × α) → List (String × α)
  | [] => [(k, v)]
  | (k', v') :: t => if k' = k then (k', v) :: t else (k', v') :: aset k v t

/-! ### Configuration store — `src/tempo/config.py`, class `TempoConfig` -/

/-- Options of one section: option name to string value, in insertion order. -/
abbrev Options := List (String × String)

/-- A `ConfigParser` state: sections in insertion order. -/
abbrev Store := List (String × Options)

/-- The process environment, `os.environ`: a string-to-string mapping. -/
abbrev Env := List (String × String)

/-- The default `optionxform` of `ConfigParser`: option names are
lower-cased on every set and lookup. -/
def optionxform (k : String) : String := lowerStr k

/-- The environment variable name prefix for server settings; source
constant `TempoConfig.ENV_PREFIX = "TEMPO_SERVER_"`. -/
def envPref : String := "TEMPO_SERVER_"

/-- The `server` section of the source constant `TempoConfig.DEFAULTS`. -/
def serverDefaults : Options :=
  [("name", "Tempo API"), ("host", "0.0.0.0"), ("port", "8000"),
   ("reload", "false"), ("workers", "1"), ("openapi_url", "/openapi.json"),
   ("docs_url", "/docs"), ("description", "Tempo API"),
   ("version", "0.1.0")]

/-- Source constant `TempoConfig.DEFAULTS`, as the parser state produced by
`read_dict(DEFAULTS)` on a fresh parser (keys are already lower-case). -/
def DEFAULTS : Store :=
  [("server", serverDefaults), ("database", [("url", "")])]

/-- `ConfigParser.has_section`. -/
def hasSection (st : Store) (sec : String) : Bool := (alookup sec st).isSome

/-- `ConfigParser.set(section, key, value)`. The real method raises
`NoSectionError` on a missing section; every call site in the source first
guarantees the section exists (the defaults are read at construction,
`update_from_args` adds the section, file reading creates sections in
order), so the model folds section creation into the operation. -/
def setOpt (st : Store) (sec key val : String) : Store :=
  match alookup sec st with
  | some items => aset sec (aset (optionxform key) val items) st
  | none => st ++ [(sec, [(optionxform key, val)])]

/-- `ConfigParser.get(section, key)` as an optional value: `none` when the
section or the option is missing. -/
def getOpt (st : Store) (sec key : String) : Option String :=
  (alookup sec st).bind (alookup (optionxform key))

/-- `ConfigParser.sections()`. -/
def sectionsOf (st : Store) : List String := st.map Prod.fst

/-- `ConfigParser.items(section)` (empty when the section is missing). -/
def itemsOf (st : Store) (sec : String) : Options := (alookup sec st).getD []

/-- `ConfigParser.read` of parsed file content: every (section, option,
value) triple of the file is set over the current state, in file order,
creating sections as they appear. -/
def readStore (st : Store) (file : Store) : Store :=
  file.foldl (fun acc sec =>
    sec.2.foldl (fun a kv => setOpt a sec.1 kv.1 kv.2) acc) st

/-- `TempoConfig._load_from_file`: merge the parsed file when it exists and
parses; a missing or unreadable file leaves the state unchanged (the
exception is caught and logged). -/
def loadFromFile (st : Store) (file : Option Store) : Store :=
  match file with
  | some f => readStore st f
  | none => st

/-- `TempoConfig._load_from_env`: for every environment entry whose name
starts with the prefix, set the lower-cased remainder of the name as a
`server` option (`os.environ.items()` is iterated in insertion order). -/
def loadFromEnv (st : Store) (env : Env) : Store :=
  env.foldl (fun acc kv =>
    if strStartsWith kv.1 envPref then
      setOpt acc "server" (lowerStr (strDropChars kv.1 envPref.data.length)) kv.2
    else acc) st

/-- `TempoConfig.__init__`: read the defaults, merge the file when present,
then layer the environment on top. -/
def initConfig (file : Option Store) (env : Env) : Store :=
  loadFromEnv (loadFromFile DEFAULTS file) env

/-- `TempoConfig.get(section, key, fallback)`: the stored value, else the
caller-supplied fallback (`none` models Python `None`). -/
def tget (st : Store) (sec key : String) (fallback : Option String) : Option String :=
  match getOpt st sec key with
  | some v => some v
  | none => fallback

/-- Python `int(s)` on a string: optional surrounding whitespace, an
optional sign, then a nonempty digit run (digit-group underscores and
non-ASCII digits are not used by this program and are not modelled). -/
def pyWhitespace (c : Char) : Bool :=
  c = ' ' || c = '\t' || c = '\n' || c = '\r'

/-- Digit run to a natural number, `none` when empty or non-digit. -/
def natDigits (l : List Char) : Option Nat :=
  if l ≠ [] ∧ l.all Char.isDigit then
    some (l.foldl (fun a c => a * 10 + (c.toNat - 48)) 0)
  else none

/-- Python `int(s)`; `none` models a raised `ValueError`. -/
def parseIntPy (s : String) : Option Int :=
  let t := ((s.data.dropWhile pyWhitespace).reverse.dropWhile pyWhitespace).reverse
  match t with
  | '+' :: rest => (natDigits rest).map Int.ofNat
  | '-' :: rest => (natDigits rest).map (fun n => -(n : Int))
  | rest => (natDigits rest).map Int.ofNat

/-- `ConfigParser.BOOLEAN_STATES` applied to the lower-cased value; `none`
models a raised `ValueError`. -/
def parseBoolPy (s : String) : Option Bool :=
  alookup (lowerStr s)
    [("1", true), ("yes", true), ("true", true), ("on", true),
     ("0", false), ("no", false), ("false", false), ("off", false)]

/-- A raised Python exception on the numeric getter path. -/
inductive PyErr where
  | valueError
  deriving DecidableEq

/-- `ConfigParser.getint(section, key, fallback)`: the fallback is applied
by `configparser` itself when the section or option is missing; a value
that `int()` rejects raises `ValueError` out of the library call. -/
def cpGetint (st : Store) (sec key : String) (fb : Int) : Except PyErr Int :=
  match getOpt st sec key with
  | none => .ok fb
  | some v =>
    match parseIntPy v with
    | some n => .ok n
    | none => .error .valueError

/-- `ConfigParser.getboolean(section, key, fallback)`, same shape. -/
def cpGetboolean (st : Store) (sec key : String) (fb : Bool) : Except PyErr Bool :=
  match getOpt st sec key with
  | none => .ok fb
  | some v =>
    match parseBoolPy v with
    | some b => .ok b
    | none => .error .valueError

/-- `TempoConfig.getint`: the library call inside
`try/except (NoSectionError, NoOptionError, ValueError)`, returning the
fallback when caught. -/
def tgetint (st : Store) (sec key : String) (fb : Int) : Int :=
  match cpGetint st sec key fb with
  | .ok n => n
  | .error _ => fb

/-- `TempoConfig.getboolean`, same `try/except` shape. -/
def tgetboolean (st : Store) (sec key : String) (fb : Bool) : Bool :=
  match cpGetboolean st sec key fb with
  | .ok b => b
  | .error _ => fb

/-- A raised `KeyError` of `TempoConfig.__getitem__`: either the key is
missing, or an unqualified key is found in several sections (the message
names every colliding section). -/
inductive KeyErr where
  | missing (key : String)
  | ambiguous (key : String) (sections : List String)
  deriving DecidableEq

/-- Split a character list at the first occurrence of a character
(Python `str.partition`, dropping the separator): `none` when absent. -/
def splitFirst (c : Char) : List Char → Option (List Char × List Char)
  | [] => none
  | x :: t =>
    if x = c then some ([], t)
    else (splitFirst c t).map (fun p => (x :: p.1, p.2))

/-- `TempoConfig.__getitem__`: a dotted key is a qualified
(section, key) lookup; a plain key is searched across all sections, with a
missing-key error on zero matches and an ambiguous-key error naming every
colliding section on two or more. -/
def getItem (st : Store) (key : String) : Except KeyErr String :=
  match splitFirst '.' key.data with
  | some (secL, kL) =>
    match tget st (String.mk secL) (String.mk kL) none with
    | none => .error (.missing key)
    | some v => .ok v
  | none =>
    match (sectionsOf st).filterMap
        (fun sec => (getOpt st sec key).map (fun v => (sec, v))) with
    | [] => .error (.missing key)
    | [(_, v)] => .ok v
    | ms => .error (.ambiguous key (ms.map Prod.fst))

/-- The sections in which an option name occurs (lookup order). -/
def collidingSections (st : Store) (key : String) : List String :=
  (sectionsOf st).filter (fun sec => (getOpt st sec key).isSome)

/-- Source constant `arg_mapping` of `TempoConfig.update_from_args`. -/
def argMapping : List (String × String) :=
  [("name", "name"), ("host", "host"), ("port", "port"),
   ("reload", "reload"), ("workers", "workers")]

/-- `TempoConfig.update_from_args`: ensure the `server` section exists,
then for every mapped argument present with a non-`None` value, set the
corresponding `server` option (`args` maps an argument name to its string
value; an absent or `None` argument is `none`). -/
def updateFromArgs (st : Store) (args : String → Option String) : Store :=
  let st1 := if hasSection st "server" then st else st ++ [("server", [])]
  argMapping.foldl (fun acc m =>
    match args m.1 with
    | some v => setOpt acc "server" m.2 v
    | none => acc) st1

/-- `TempoConfig.export_to_env`: when a `server` section exists, publish
every one of its options into the environment under the prefixed,
upper-cased name. -/
def exportToEnv (st : Store) (env : Env) : Env :=
  if hasSection st "server" then
    (itemsOf st "server").foldl
      (fun e kv => aset (envPref ++ upperStr kv.1) kv.2 e) env
  else env

/-! ### Routes — `src/tempo/fastapi.py`, `use_route_names_as_operation_ids` -/

/-- An `APIRoute` of the application route table: endpoint name, path,
HTTP method list, and the operation identifier (initially unset).
Entries of `self.routes` that are not `APIRoute` instances are skipped by
the check and are not modelled. -/
structure APIRoute where
  name : String
  path : String
  methods : List String
  operation_id : Option String := none
  deriving DecidableEq

/-- The collision key of a route: its path paired with
`frozenset(route.methods)`. -/
def endpointKey (r : APIRoute) : String × Finset String :=
  (r.path, r.methods.toFinset)

/-- The route with its name assigned as its operation identifier
(`route.operation_id = route.name`). -/
def withOperationId (r : APIRoute) : APIRoute :=
  { r with operation_id := some r.name }

/-- The traversal of `use_route_names_as_operation_ids`, carrying the
`route_names` and `route_endpoints` sets already seen: a repeated name or
a repeated (path, method-set) key raises, otherwise the name is assigned
as the operation identifier and the traversal continues. -/
def checkRoutesGo : List APIRoute → List String → List (String × Finset String) →
    Except String (List APIRoute)
  | [], _, _ => .ok []
  | r :: t, names, eps =>
    if r.name ∈ names then
      .error ("Route function names [" ++ r.name ++ "] should be unique")
    else if endpointKey r ∈ eps then
      .error ("Route " ++ r.path ++ " should be unique")
    else
      match checkRoutesGo t (r.name :: names) (endpointKey r :: eps) with
      | .ok rest => .ok (withOperationId r :: rest)
      | .error e => .error e

/-- `FastAPI.use_route_names_as_operation_ids` over the merged route
table; an `.error` models the raised `Exception` that aborts startup. -/
def useRouteNamesAsOperationIds (routes : List APIRoute) : Except String (List APIRoute) :=
  checkRoutesGo routes [] []

/-! ### Addon discovery — `src/tempo/fastapi.py`, `setup_addon_routers`
and `include_router_from_module` -/

/-- One direct child of the addons root directory: its name, whether it is
a directory, and whether it contains a `router.py` file. -/
structure DirEntry where
  name : String
  isDir : Bool
  hasRouterPy : Bool
  deriving DecidableEq

/-- The filter of `setup_addon_routers`: a child is an addon candidate iff
it is a directory, its name starts with neither `.` nor `_`, and it has a
`router.py` file. -/
def isCandidate (e : DirEntry) : Bool :=
  e.isDir && !(strStartsWith e.name ".") && !(strStartsWith e.name "_")
    && e.hasRouterPy

/-- Code-point lexicographic comparison of character lists (Python string
comparison). -/
def lexLe : List Char → List Char → Bool
  | [], _ => true
  | _ :: _, [] => false
  | a :: as, b :: bs =>
    if a.toNat < b.toNat then true
    else if b.toNat < a.toNat then false
    else lexLe as bs

/-- Directory traversal order of `sorted(addons_dir.iterdir())`: siblings
compare by their final path component, code-point lexicographic. -/
def entryLe (a b : DirEntry) : Prop := lexLe a.name.data b.name.data = true

instance : DecidableRel entryLe := fun a b =>
  inferInstanceAs (Decidable (_ = true))

/-- The candidates of `setup_addon_routers`, in processing order. Python
`sorted` is a stable sort, so it is modelled by the (also stable)
insertion sort on the sibling order. -/
def discoverAddons (entries : List DirEntry) : List DirEntry :=
  (entries.insertionSort entryLe).filter isCandidate

/-- The dotted module path imported for a candidate
(`f"addons.{addon_path.name}.router"`). -/
def moduleNameOf (e : DirEntry) : String := "addons." ++ e.name ++ ".router"

/-- The module paths handed to `importlib.import_module` by
`setup_addon_routers`, in order. -/
def importedModules (entries : List DirEntry) : List String :=
  (discoverAddons entries).map moduleNameOf

/-- The `router` attribute value of an imported addon module: whether it
is an `APIRouter` instance, and the routes it carries. -/
structure RouterObj where
  isAPIRouter : Bool
  routes : List APIRoute
  deriving DecidableEq

/-- The outcome of `importlib.import_module` on one addon module:
the module may fail to import (`ModuleNotFoundError`, `AttributeError`
raised by its own body, or any other exception), or import with or
without a `router` attribute. -/
inductive ImportOutcome where
  | moduleNotFound
  | attributeError
  | otherError
  | loaded (router : Option RouterObj)
  deriving DecidableEq

/-- `FastAPI.include_router_from_module` on one module: the routes it adds
to the application, paired with the log lines it emits. Every raised
exception is caught and logged; a module without a `router` attribute
falls through the `hasattr` guard and is skipped silently; a `router` of
the wrong shape is logged and skipped; a well-shaped router has its routes
included. -/
def includeRouterFromModule (moduleName : String) :
    ImportOutcome → List APIRoute × List String
  | .moduleNotFound => ([], ["Module not found: " ++ moduleName])
  | .attributeError =>
    ([], ["Module " ++ moduleName ++ " does not have router attribute"])
  | .otherError =>
    ([], ["Module " ++ moduleName ++ " failed with the following error"])
  | .loaded none => ([], [])
  | .loaded (some r) =>
    if r.isAPIRouter then
      (r.routes, ["Registered router from module: " ++ moduleName])
    else
      ([], ["Failed to registre router from module: " ++ moduleName])

/-- The registration loop over a list of module paths: each module is
handed to `include_router_from_module` in turn, accumulating the included
routes and the log lines (an `importer` maps a module path to its import
outcome). -/
def registerModules (mods : List String) (importer : String → ImportOutcome) :
    List APIRoute × List String :=
  mods.foldl (fun acc m =>
    let r := includeRouterFromModule m (importer m)
    (acc.1 ++ r.1, acc.2 ++ r.2)) ([], [])

/-- Whether an import outcome carries a correctly shaped router, and if so
its routes. -/
def wellShapedRoutes : ImportOutcome → Option (List APIRoute)
  | .loaded (some r) => if r.isAPIRouter then some r.routes else none
  | _ => none

/-! ### Command dispatch — `src/tempo/cli/commands.py` -/

/-- The command names resolvable by `find_command`. `server` and `shell`
are defined under `src/tempo/cli/`. Modelled from the spec: the built-in
`help` pseudo-command resolved by the dispatcher is not among the source
files under `src/`; the spec states that dispatching `--help` with no
command name selects it and completes without error. -/
def availableCommands : List String := ["server", "shell", "help"]

/-- Source constant `PROG_NAME` (the basename of `sys.argv[0]`). -/
def progName : String := "tempo"

/-- The outcome of `execute_command`: a command ran with the remaining
arguments, or the process terminated through `sys.exit(message)` (which
prints the message and exits with status 1). -/
inductive ExecOutcome where
  | ran (command : String) (args : List String)
  | exitError (message : String)
  deriving DecidableEq

/-- The (command name, remaining arguments) selection of
`execute_command`: the first argument when it is not a flag, else the
`help` pseudo-command with the help flags filtered out (both the
help-requested branch and the default branch compute the same pair). -/
def selectCommand (argv : List String) : String × List String :=
  match argv with
  | a :: rest =>
    if strStartsWith a "-" = false then (a, rest)
    else ("help", argv.filter (fun x => x ≠ "-h" && x ≠ "--help"))
  | [] => ("help", [])

/-- `execute_command`: select the command, run it when `find_command`
resolves the name, else exit with the unknown-command message. -/
def executeCommand (argv : List String) : ExecOutcome :=
  let p := selectCommand argv
  if p.1 ∈ availableCommands then .ran p.1 p.2
  else
    .exitError ("Unknown command " ++ p.1 ++ ".\nUse " ++ progName ++
      " --help to see the list of available commands.")

/-! ### Database guard — `src/tempo/db.py`, class `Database` -/

/-- The `Database` state after `__init__`: the configured connection URL,
read as `get_config().get("database", "url")` (so `none` models Python
`None`). The engine and the session factory are created only when the URL
is truthy. -/
structure Database where
  url : Option String
  deriving DecidableEq

/-- `Database.__init__` from a configuration store. -/
def Database.ofConfig (st : Store) : Database :=
  ⟨tget st "database" "url" none⟩

/-- Whether `create_engine(url) if url else None` produced an engine:
the URL is present and nonempty (Python string truthiness). -/
def Database.isEngineCreated (d : Database) : Bool :=
  match d.url with
  | some u => u ≠ ""
  | none => false

/-- The result of using a database handle: a usable handle, or a raised
`RuntimeError`. -/
inductive DbResult where
  | handle
  | runtimeError (message : String)
  deriving DecidableEq

/-- The message of every unconfigured-database `RuntimeError`. -/
def dbErrMsg : String := "Database not configured. Set [database] url in tempo.conf"

/-- Property `Database.cr`: raise when no engine exists, else hand out a
connection. -/
def Database.cr (d : Database) : DbResult :=
  if d.isEngineCreated then .handle else .runtimeError dbErrMsg

/-- Property `Database.session`: the session factory exists iff the engine
does; raise when it is `None`, else hand out a session. -/
def Database.session (d : Database) : DbResult :=
  if d.isEngineCreated then .handle else .runtimeError dbErrMsg

/-- Method `Database.create_all`: raise when no engine exists, else create
the tables. -/
def Database.createAll (d : Database) : DbResult :=
  if d.isEngineCreated then .handle else .runtimeError dbErrMsg

/-! ## Supporting lemmas -/

theorem toNat_ofNat_small (n : Nat) (h : n < 0xd800) : (Char.ofNat n).toNat = n := by
  simp only [Char.ofNat, Nat.isValidChar, Char.toNat]
  rw [dif_pos (Or.inl h)]
  simp [Char.ofNatAux, UInt32.toNat, BitVec.toNat_ofNatLt]

theorem char_toNat_lt (c : Char) : c.toNat < 0x110000 := by
  rcases c.valid with h | ⟨_, h⟩
  · exact Nat.lt_trans h (by norm_num)
  · exact h

theorem char_eq_of_toNat_eq {a b : Char} (h : a.toNat = b.toNat) : a = b := by
  have ha := Char.ofNat_toNat a
  have hb := Char.ofNat_toNat b
  rw [h] at ha
  exact ha.symm.trans hb

theorem lowerChar_toNat (c : Char) (h : 65 ≤ c.toNat ∧ c.toNat ≤ 90) :
    (lowerChar c).toNat = c.toNat + 32 := by
  unfold lowerChar
  rw [if_pos h]
  exact toNat_ofNat_small _ (by omega)

theorem upperChar_toNat (c : Char) (h : 97 ≤ c.toNat ∧ c.toNat ≤ 122) :
    (upperChar c).toNat = c.toNat - 32 := by
  unfold upperChar
  rw [if_pos h]
  exact toNat_ofNat_small _ (by omega)

/-- Lower-casing is idempotent on characters. -/
theorem lowerChar_lowerChar (c : Char) : lowerChar (lowerChar c) = lowerChar c := by
  by_cases h : 65 ≤ c.toNat ∧ c.toNat ≤ 90
  · have ht := lowerChar_toNat c h
    unfold lowerChar
    rw [if_pos h, if_neg]
    rw [show Char.ofNat (c.toNat + 32) = lowerChar c from by unfold lowerChar; rw [if_pos h]]
    omega
  · unfold lowerChar
    rw [if_neg h, if_neg h]

/-- On a character fixed by lower-casing, upper-then-lower is the
identity. -/
theorem lowerChar_upperChar (c : Char) (h : lowerChar c = c) :
    lowerChar (upperChar c) = c := by
  by_cases h1 : 97 ≤ c.toNat ∧ c.toNat ≤ 122
  · have ht := upperChar_toNat c h1
    unfold lowerChar
    rw [if_pos (by omega)]
    apply char_eq_of_toNat_eq
    rw [toNat_ofNat_small _ (by omega)]
    omega
  · have hu : upperChar c = c := by unfold upperChar; rw [if_neg h1]
    rw [hu, h]

theorem map_lowerChar_eq_self {l : List Char} (h : l.map lowerChar = l) :
    ∀ c ∈ l, lowerChar c = c := by
  induction l with
  | nil => intro c hc; cases hc
  | cons x t ih =>
    simp only [List.map_cons, List.cons.injEq] at h
    intro c hc
    rcases List.mem_cons.mp hc with rfl | hc
    · exact h.1
    · exact ih h.2 c hc

theorem list_map_eq_self_of_mem {l : List Char} {f : Char → Char}
    (h : ∀ c ∈ l, f c = c) : l.map f = l := by
  induction l with
  | nil => rfl
  | cons x t ih =>
    simp only [List.map_cons]
    rw [h x (List.mem_cons_self x t), ih (fun c hc => h c (List.mem_cons_of_mem x hc))]

theorem lowerStr_eq_self_iff (s : String) :
    lowerStr s = s ↔ ∀ c ∈ s.data, lowerChar c = c := by
  constructor
  · intro h
    apply map_lowerChar_eq_self
    have := congrArg String.data h
    simpa [lowerStr] using this
  · intro h
    apply String.ext
    show s.data.map lowerChar = s.data
    exact list_map_eq_self_of_mem h

/-- Lower-casing is idempotent on strings. -/
theorem lowerStr_idem (s : String) : lowerStr (lowerStr s) = lowerStr s := by
  apply String.ext
  show (s.data.map lowerChar).map lowerChar = s.data.map lowerChar
  rw [List.map_map]
  exact List.map_congr_left (fun c _ => lowerChar_lowerChar c)

/-- On a string fixed by lower-casing, upper-then-lower is the
identity. -/
theorem lowerStr_upperStr (s : String) (h : lowerStr s = s) :
    lowerStr (upperStr s) = s := by
  have hc := (lowerStr_eq_self_iff s).mp h
  apply String.ext
  show (s.data.map upperChar).map lowerChar = s.data
  rw [List.map_map]
  exact list_map_eq_self_of_mem (fun c hcm => lowerChar_upperChar c (hc c hcm))

/-- Upper-casing is injective on strings fixed by lower-casing. -/
theorem upperStr_inj {a b : String} (ha : lowerStr a = a) (hb : lowerStr b = b)
    (h : upperStr a = upperStr b) : a = b := by
  have := congrArg lowerStr h
  rwa [lowerStr_upperStr a ha, lowerStr_upperStr b hb] at this

theorem strStartsWith_append (p s : String) : strStartsWith (p ++ s) p = true := by
  simp [strStartsWith, String.data_append, List.isPrefixOf_iff_prefix]

theorem strDropChars_append (p s : String) :
    strDropChars (p ++ s) p.data.length = s := by
  apply String.ext
  simp [strDropChars, String.data_append]

theorem string_append_left_cancel {p a b : String} (h : p ++ a = p ++ b) : a = b := by
  apply String.ext
  have := congrArg String.data h
  rw [String.data_append, String.data_append] at this
  exact List.append_cancel_left this

theorem string_append_right_cancel {q a b : String} (h : a ++ q = b ++ q) : a = b := by
  apply String.ext
  have := congrArg String.data h
  rw [String.data_append, String.data_append] at this
  exact List.append_cancel_right this

/-! ### Association list lemmas -/

theorem alookup_aset_self {α : Type} (k : String) (v : α) (l : List (String × α)) :
    alookup k (aset k v l) = some v := by
  induction l with
  | nil => simp [aset, alookup]
  | cons p t ih =>
    by_cases h : p.1 = k
    · simp [aset, alookup, h]
    · simp [aset, alookup, h, ih]

theorem alookup_aset_ne {α : Type} {k q : String} (hne : q ≠ k) (v : α)
    (l : List (String × α)) : alookup q (aset k v l) = alookup q l := by
  have hkq : k ≠ q := fun h => hne h.symm
  induction l with
  | nil => simp [aset, alookup, hkq]
  | cons p t ih =>
    obtain ⟨pk, pv⟩ := p
    by_cases h : pk = k
    · have hpq : pk ≠ q := by rw [h]; exact hkq
      simp [aset, alookup, h, hpq, hkq]
    · by_cases hq : pk = q
      · simp [aset, alookup, h, hq, hne]
      · simp [aset, alookup, h, hq, ih]

theorem alookup_eq_none {α : Type} {k : String} {l : List (String × α)}
    (h : ∀ p ∈ l, p.1 ≠ k) : alookup k l = none := by
  induction l with
  | nil => rfl
  | cons p t ih =>
    simp only [alookup, if_neg (h p (List.mem_cons_self p t))]
    exact ih (fun q hq => h q (List.mem_cons_of_mem p hq))

theorem mem_of_alookup_some {α : Type} {k : String} {l : List (String × α)} {v : α}
    (h : alookup k l = some v) : (k, v) ∈ l := by
  induction l with
  | nil => cases h
  | cons p t ih =>
    obtain ⟨pk, pv⟩ := p
    by_cases hp : pk = k
    · simp only [alookup, if_pos hp] at h
      injection h with h
      subst hp
      subst h
      exact List.mem_cons_self _ _
    · simp only [alookup, if_neg hp] at h
      exact List.mem_cons_of_mem _ (ih h)

theorem aset_of_alookup_none {α : Type} {k : String} {l : List (String × α)}
    (h : alookup k l = none) (v : α) : aset k v l = l ++ [(k, v)] := by
  induction l with
  | nil => rfl
  | cons p t ih =>
    by_cases hp : p.1 = k
    · simp [alookup, hp] at h
    · simp only [alookup, if_neg hp] at h
      simp [aset, hp, ih h]

/-! ### Store operation lemmas -/

theorem alookup_self_append (st : Store) (sec : String) (its : Options)
    (hs : alookup sec st = none) :
    alookup sec (st ++ [(sec, its)]) = some its := by
  induction st with
  | nil => simp [alookup]
  | cons p t ih =>
    by_cases hp : p.1 = sec
    · simp [alookup, hp] at hs
    · simp only [alookup, if_neg hp] at hs
      simp only [List.cons_append, alookup, if_neg hp]
      exact ih hs

theorem getOpt_setOpt_self (st : Store) (sec k q v : String)
    (h : optionxform q = optionxform k) :
    getOpt (setOpt st sec k v) sec q = some v := by
  unfold getOpt setOpt
  cases hs : alookup sec st with
  | some items =>
    rw [alookup_aset_self, Option.some_bind, h]
    exact alookup_aset_self _ _ _
  | none =>
    rw [alookup_self_append st sec _ hs, Option.some_bind, h]
    simp [alookup]

theorem getOpt_setOpt_ne_key (st : Store) (sec k q v : String)
    (h : optionxform q ≠ optionxform k) :
    getOpt (setOpt st sec k v) sec q = getOpt st sec q := by
  unfold getOpt setOpt
  have h' : optionxform k ≠ optionxform q := fun hh => h hh.symm
  cases hs : alookup sec st with
  | some items =>
    rw [alookup_aset_self, Option.some_bind, Option.some_bind]
    exact alookup_aset_ne h v items
  | none =>
    rw [alookup_self_append st sec _ hs, Option.some_bind]
    simp [alookup, h']

theorem getOpt_setOpt_ne_sec (st : Store) {sec sec' : String} (k q v : String)
    (h : sec' ≠ sec) :
    getOpt (setOpt st sec k v) sec' q = getOpt st sec' q := by
  unfold getOpt setOpt
  cases hs : alookup sec st with
  | some items => rw [alookup_aset_ne h]
  | none =>
    have hne : alookup sec' (st ++ [(sec, [(optionxform k, v)])]) = alookup sec' st := by
      have h' : sec ≠ sec' := fun hh => h hh.symm
      induction st with
      | nil => simp [alookup, h']
      | cons p t ih =>
        by_cases hq : p.1 = sec'
        · simp [alookup, hq]
        · simp only [List.cons_append, alookup, if_neg hq]
          apply ih
          by_cases hp : p.1 = sec
          · simp [alookup, hp] at hs
          · simpa [alookup, hp] using hs
    rw [hne]

/-! ## Claim C9 — database guard -/

/-- C9: whenever no database connection URL is configured (the configured
value is absent or empty, so no engine is created), obtaining a raw
connection, obtaining an ORM session, and creating tables each raise a
`RuntimeError` at the point of use instead of silently doing nothing. -/
theorem c9_db_unconfigured (st : Store)
    (h : tget st "database" "url" none = none ∨ tget st "database" "url" none = some "") :
    (Database.ofConfig st).cr = .runtimeError dbErrMsg ∧
    (Database.ofConfig st).session = .runtimeError dbErrMsg ∧
    (Database.ofConfig st).createAll = .runtimeError dbErrMsg := by
  have hE : (Database.ofConfig st).isEngineCreated = false := by
    unfold Database.ofConfig Database.isEngineCreated
    rcases h with h | h <;> simp [h]
  unfold Database.cr Database.session Database.createAll
  rw [hE]
  exact ⟨rfl, rfl, rfl⟩

/-- Witness for C9 at the default store, whose database URL is the empty
string. -/
theorem c9_db_unconfigured_witness :
    (Database.ofConfig DEFAULTS).cr = .runtimeError dbErrMsg ∧
    (Database.ofConfig DEFAULTS).session = .runtimeError dbErrMsg ∧
    (Database.ofConfig DEFAULTS).createAll = .runtimeError dbErrMsg :=
  c9_db_unconfigured DEFAULTS (Or.inr (by decide))

/-! ## Claim C7 — command dispatch -/

/-- C7: dispatching an unknown command name terminates through
`sys.exit` with a message containing the literal unknown name, and no
command runs; dispatching `--help` (or `-h`) with no command name selects
the built-in `help` pseudo-command, which completes without error. -/
theorem c7_dispatcher :
    (∀ (name : String) (rest : List String),
      strStartsWith name "-" = false → name ∉ availableCommands →
      ∃ msg, executeCommand (name :: rest) = .exitError msg ∧
        ∃ pre post, msg = pre ++ name ++ post) ∧
    (∀ (a : String) (rest : List String),
      strStartsWith a "-" = true → ("-h" ∈ a :: rest ∨ "--help" ∈ a :: rest) →
      executeCommand (a :: rest) =
        .ran "help" ((a :: rest).filter (fun x => x ≠ "-h" && x ≠ "--help"))) := by
  constructor
  · intro name rest hflag hunk
    refine ⟨"Unknown command " ++ name ++ ".\nUse " ++ progName ++
        " --help to see the list of available commands.", ?_, "Unknown command ",
      ".\nUse " ++ progName ++ " --help to see the list of available commands.", ?_⟩
    · simp [executeCommand, selectCommand, hflag, hunk]
    · simp [String.append_assoc]
  · intro a rest hflag _hhelp
    simp [executeCommand, selectCommand, hflag, availableCommands]

/-- Witness for C7: the unknown command `frobnicate` exits with a message
containing it, and a bare `--help` runs the `help` pseudo-command. -/
theorem c7_dispatcher_witness :
    (∃ msg, executeCommand ["frobnicate"] = .exitError msg ∧
      ∃ pre post, msg = pre ++ "frobnicate" ++ post) ∧
    executeCommand ["--help"] = .ran "help" [] := by
  constructor
  · exact c7_dispatcher.1 "frobnicate" [] (by decide) (by decide)
  · have h := c7_dispatcher.2 "--help" [] (by decide) (Or.inr (by simp))
    simpa using h

/-! ## Claim C8 — typed getters fall back instead of raising -/

/-- C8: the integer and boolean getters return the stored value converted
to the requested type when conversion succeeds, and return the
caller-supplied fallback rather than raising when the section or key is
missing or the stored value fails to parse as that type. -/
theorem c8_getter_fallback (st : Store) (sec key : String) (fbI : Int) (fbB : Bool) :
    (getOpt st sec key = none →
      tgetint st sec key fbI = fbI ∧ tgetboolean st sec key fbB = fbB) ∧
    (∀ v, getOpt st sec key = some v →
      (parseIntPy v = none → tgetint st sec key fbI = fbI) ∧
      (∀ n, parseIntPy v = some n → tgetint st sec key fbI = n) ∧
      (parseBoolPy v = none → tgetboolean st sec key fbB = fbB) ∧
      (∀ b, parseBoolPy v = some b → tgetboolean st sec key fbB = b)) := by
  constructor
  · intro h
    unfold tgetint tgetboolean cpGetint cpGetboolean
    rw [h]
    exact ⟨rfl, rfl⟩
  · intro v h
    refine ⟨?_, ?_, ?_, ?_⟩
    · intro hp
      unfold tgetint cpGetint
      simp [h, hp]
    · intro n hp
      unfold tgetint cpGetint
      simp [h, hp]
    · intro hp
      unfold tgetboolean cpGetboolean
      simp [h, hp]
    · intro b hp
      unfold tgetboolean cpGetboolean
      simp [h, hp]

/-- Witness for C8: a malformed boolean value (`maybe`) yields the
caller-supplied fallback, and a well-formed integer value converts. -/
theorem c8_getter_fallback_witness :
    tgetboolean [("s", [("b", "maybe")])] "s" "b" true = true ∧
    tgetint DEFAULTS "server" "port" 7 = 8000 := by
  constructor
  · exact ((c8_getter_fallback [("s", [("b", "maybe")])] "s" "b" 7 true).2
      "maybe" (by decide)).2.2.1 (by decide)
  · exact ((c8_getter_fallback DEFAULTS "server" "port" 7 true).2
      "8000" (by decide)).2.1 8000 (by decide)

/-! ## Claim C6 — unqualified key lookup -/

theorem splitFirst_eq_none_iff (c : Char) (l : List Char) :
    splitFirst c l = none ↔ c ∉ l := by
  induction l with
  | nil => simp [splitFirst]
  | cons x t ih =>
    by_cases hx : x = c
    · simp [splitFirst, hx]
    · have hxc : ¬ c = x := fun h => hx h.symm
      cases hsp : splitFirst c t with
      | none =>
        have hnt : c ∉ t := ih.mp hsp
        simp [splitFirst, hx, hsp, hxc, hnt]
      | some p =>
        have hnt : c ∈ t := by
          by_contra hmt
          rw [ih.mpr hmt] at hsp
          cases hsp
        simp [splitFirst, hx, hsp, hnt]

theorem filterMap_pair_map_fst (l : List String) (g : String → Option String) :
    ((l.filterMap (fun a => (g a).map (fun v => (a, v)))).map Prod.fst) =
      l.filter (fun a => (g a).isSome) := by
  induction l with
  | nil => rfl
  | cons a t ih => cases hg : g a <;> simp [hg, ih]

theorem filterMap_pair_singleton {l : List String} {g : String → Option String} {s : String}
    (h : l.filter (fun a => (g a).isSome) = [s]) :
    ∃ v, g s = some v ∧
      l.filterMap (fun a => (g a).map (fun v => (a, v))) = [(s, v)] := by
  have hm := filterMap_pair_map_fst l g
  rw [h] at hm
  rcases hfm : l.filterMap (fun a => (g a).map (fun v => (a, v))) with _ | ⟨p, _ | ⟨q, u⟩⟩
  · rw [hfm] at hm
    cases hm
  · rw [hfm] at hm
    simp only [List.map_cons, List.map_nil, List.cons.injEq, and_true] at hm
    have hpmem : p ∈ l.filterMap (fun a => (g a).map (fun v => (a, v))) := by
      rw [hfm]
      exact List.mem_cons_self _ _
    rcases List.mem_filterMap.mp hpmem with ⟨a, _ha, hga⟩
    cases hg : g a with
    | none =>
      rw [hg] at hga
      cases hga
    | some v =>
      rw [hg] at hga
      have hav : (a, v) = p := by simpa using hga
      obtain rfl : p = (a, v) := hav.symm
      have hm1 : a = s := hm
      refine ⟨v, ?_, ?_⟩
      · rw [← hm1]
        exact hg
      · rw [hm1]
  · rw [hfm] at hm
    simp at hm

/-- C6: looking a plain (unqualified) key up searches all sections: a key
present in exactly one section returns that section value; a key present
in two or more sections raises an ambiguous-key error naming every
colliding section, never silently picking one; a key present in no
section raises a missing-key error. -/
theorem c6_unqualified_lookup (st : Store) (key : String)
    (hdot : ('.' : Char) ∉ key.data) :
    (collidingSections st key = [] → getItem st key = .error (.missing key)) ∧
    (∀ s, collidingSections st key = [s] →
      ∃ v, getOpt st s key = some v ∧ getItem st key = .ok v) ∧
    (2 ≤ (collidingSections st key).length →
      getItem st key = .error (.ambiguous key (collidingSections st key))) := by
  have hsp : splitFirst '.' key.data = none := (splitFirst_eq_none_iff _ _).mpr hdot
  have hfst := filterMap_pair_map_fst (sectionsOf st)
    (fun sec => getOpt st sec key)
  refine ⟨?_, ?_, ?_⟩
  · intro hc
    unfold collidingSections at hc
    rw [hc] at hfst
    have hempty : (sectionsOf st).filterMap
        (fun sec => (getOpt st sec key).map (fun v => (sec, v))) = [] :=
      List.map_eq_nil_iff.mp hfst
    unfold getItem
    rw [hsp, hempty]
  · intro s hc
    unfold collidingSections at hc
    rcases filterMap_pair_singleton (g := fun sec => getOpt st sec key) hc with
      ⟨v, hv, hfm⟩
    refine ⟨v, hv, ?_⟩
    unfold getItem
    rw [hsp, hfm]
  · intro hlen
    unfold collidingSections at hlen ⊢
    rw [← hfst] at hlen ⊢
    unfold getItem
    rw [hsp]
    match hcase : (sectionsOf st).filterMap
        (fun sec => (getOpt st sec key).map (fun v => (sec, v))) with
    | [] => rw [hcase] at hlen; simp at hlen
    | [p] => rw [hcase] at hlen; simp at hlen
    | p :: q :: u => rfl

/-- Witness for C6: in the default store, `host` occurs only in the
`server` section, `url` only in `database`, a fabricated two-section store
makes `k` ambiguous, and `nope` is missing. -/
theorem c6_unqualified_lookup_witness :
    getItem DEFAULTS "host" = .ok "0.0.0.0" ∧
    getItem [("a", [("k", "1")]), ("b", [("k", "2")])] "k"
      = .error (.ambiguous "k" ["a", "b"]) ∧
    getItem DEFAULTS "nope" = .error (.missing "nope") := by
  refine ⟨?_, ?_, ?_⟩
  · rcases (c6_unqualified_lookup DEFAULTS "host" (by decide)).2.1 "server" (by decide)
      with ⟨v, hv, hres⟩
    rw [hres]
    have : v = "0.0.0.0" := by
      have : getOpt DEFAULTS "server" "host" = some "0.0.0.0" := by decide
      rw [this] at hv
      injection hv with h
      exact h.symm
    rw [this]
  · have h := (c6_unqualified_lookup [("a", [("k", "1")]), ("b", [("k", "2")])] "k"
      (by decide)).2.2 (by decide)
    rw [h]
    have : collidingSections [("a", [("k", "1")]), ("b", [("k", "2")])] "k" = ["a", "b"] := by
      decide
    rw [this]
  · exact (c6_unqualified_lookup DEFAULTS "nope" (by decide)).1 (by decide)

/-! ## Claim C1 — whole-application route uniqueness check -/

theorem checkRoutesGo_ok (t : List APIRoute) (names : List String)
    (eps : List (String × Finset String))
    (h1 : (t.map APIRoute.name).Nodup) (h2 : ∀ r ∈ t, r.name ∉ names)
    (h3 : (t.map endpointKey).Nodup) (h4 : ∀ r ∈ t, endpointKey r ∉ eps) :
    checkRoutesGo t names eps = .ok (t.map withOperationId) := by
  induction t generalizing names eps with
  | nil => rfl
  | cons r t ih =>
    simp only [List.map_cons, List.nodup_cons] at h1 h3
    have hn : r.name ∉ names := h2 r (List.mem_cons_self r t)
    have he : endpointKey r ∉ eps := h4 r (List.mem_cons_self r t)
    have h2' : ∀ q ∈ t, q.name ∉ r.name :: names := by
      intro q hq
      simp only [List.mem_cons, not_or]
      exact ⟨fun hh => h1.1 (hh ▸ List.mem_map_of_mem APIRoute.name hq),
        h2 q (List.mem_cons_of_mem r hq)⟩
    have h4' : ∀ q ∈ t, endpointKey q ∉ endpointKey r :: eps := by
      intro q hq
      simp only [List.mem_cons, not_or]
      exact ⟨fun hh => h3.1 (hh ▸ List.mem_map_of_mem endpointKey hq),
        h4 q (List.mem_cons_of_mem r hq)⟩
    unfold checkRoutesGo
    rw [if_neg hn, if_neg he, ih (r.name :: names) (endpointKey r :: eps) h1.2 h2' h3.2 h4']
    rfl

theorem checkRoutesGo_ok_inv (t : List APIRoute) (names : List String)
    (eps : List (String × Finset String)) (res : List APIRoute)
    (h : checkRoutesGo t names eps = .ok res) :
    (t.map APIRoute.name).Nodup ∧ (∀ r ∈ t, r.name ∉ names) ∧
    (t.map endpointKey).Nodup ∧ (∀ r ∈ t, endpointKey r ∉ eps) ∧
    res = t.map withOperationId := by
  induction t generalizing names eps res with
  | nil =>
    injection h with h
    exact ⟨List.nodup_nil, fun r hr => absurd hr (List.not_mem_nil r), List.nodup_nil,
      fun r hr => absurd hr (List.not_mem_nil r), h.symm⟩
  | cons r t ih =>
    unfold checkRoutesGo at h
    by_cases hn : r.name ∈ names
    · rw [if_pos hn] at h
      cases h
    rw [if_neg hn] at h
    by_cases he : endpointKey r ∈ eps
    · rw [if_pos he] at h
      cases h
    rw [if_neg he] at h
    cases hrec : checkRoutesGo t (r.name :: names) (endpointKey r :: eps) with
    | error e =>
      rw [hrec] at h
      cases h
    | ok rest =>
      rw [hrec] at h
      injection h with h
      rcases ih (r.name :: names) (endpointKey r :: eps) rest hrec with
        ⟨g1, g2, g3, g4, g5⟩
      refine ⟨?_, ?_, ?_, ?_, ?_⟩
      · rw [List.map_cons, List.nodup_cons]
        refine ⟨?_, g1⟩
        intro hmem
        rcases List.mem_map.mp hmem with ⟨q, hq, hqe⟩
        exact (g2 q hq) (by rw [hqe]; exact List.mem_cons_self _ _)
      · intro q hq
        rcases List.mem_cons.mp hq with rfl | hq
        · exact hn
        · exact fun hmem => (g2 q hq) (List.mem_cons_of_mem _ hmem)
      · rw [List.map_cons, List.nodup_cons]
        refine ⟨?_, g3⟩
        intro hmem
        rcases List.mem_map.mp hmem with ⟨q, hq, hqe⟩
        exact (g4 q hq) (by rw [hqe]; exact List.mem_cons_self _ _)
      · intro q hq
        rcases List.mem_cons.mp hq with rfl | hq
        · exact he
        · exact fun hmem => (g4 q hq) (List.mem_cons_of_mem _ hmem)
      · rw [← h, g5, List.map_cons]

/-- C1: the whole-application route check raises whenever two routes share
a name or share a (path, method-set) pair, assigns each surviving route
name as its operation identifier, and completes without error exactly on
route tables with all names distinct and all (path, method-set) pairs
distinct. -/
theorem c1_route_uniqueness (routes : List APIRoute) :
    (useRouteNamesAsOperationIds routes = .ok (routes.map withOperationId) ↔
      (routes.map APIRoute.name).Nodup ∧ (routes.map endpointKey).Nodup) ∧
    (∀ res, useRouteNamesAsOperationIds routes = .ok res →
      res = routes.map withOperationId) ∧
    (¬ ((routes.map APIRoute.name).Nodup ∧ (routes.map endpointKey).Nodup) →
      ∃ msg, useRouteNamesAsOperationIds routes = .error msg) := by
  refine ⟨⟨?_, ?_⟩, ?_, ?_⟩
  · intro h
    rcases checkRoutesGo_ok_inv routes [] [] _ h with ⟨g1, _, g3, _, _⟩
    exact ⟨g1, g3⟩
  · intro h
    exact checkRoutesGo_ok routes [] [] h.1 (by simp) h.2 (by simp)
  · intro res h
    exact (checkRoutesGo_ok_inv routes [] [] res h).2.2.2.2
  · intro h
    cases hres : useRouteNamesAsOperationIds routes with
    | error msg => exact ⟨msg, rfl⟩
    | ok res =>
      exfalso
      rcases checkRoutesGo_ok_inv routes [] [] res hres with ⟨g1, _, g3, _, _⟩
      exact h ⟨g1, g3⟩

/-- Witness for C1: a duplicate-name table errors, a duplicate
(path, method-set) table errors even when the method lists are permuted,
and a clean table succeeds with operation identifiers assigned. -/
theorem c1_route_uniqueness_witness :
    useRouteNamesAsOperationIds
      [⟨"x", "/x", ["GET"], none⟩, ⟨"y", "/y", ["GET"], none⟩]
      = .ok [⟨"x", "/x", ["GET"], some "x"⟩, ⟨"y", "/y", ["GET"], some "y"⟩] ∧
    (∃ msg, useRouteNamesAsOperationIds
      [⟨"x", "/x", ["GET"], none⟩, ⟨"x", "/y", ["GET"], none⟩] = .error msg) ∧
    (∃ msg, useRouteNamesAsOperationIds
      [⟨"x", "/x", ["GET", "POST"], none⟩, ⟨"y", "/x", ["POST", "GET"], none⟩]
      = .error msg) := by
  refine ⟨?_, ?_, ?_⟩
  · exact (c1_route_uniqueness
      [⟨"x", "/x", ["GET"], none⟩, ⟨"y", "/y", ["GET"], none⟩]).1.mpr
      ⟨by decide, by decide⟩
  · exact (c1_route_uniqueness
      [⟨"x", "/x", ["GET"], none⟩, ⟨"x", "/y", ["GET"], none⟩]).2.2 (by decide)
  · exact (c1_route_uniqueness
      [⟨"x", "/x", ["GET", "POST"], none⟩, ⟨"y", "/x", ["POST", "GET"], none⟩]).2.2
      (by decide)

/-! ## Claim C2 — addon candidate filter and processing order -/

theorem lexLe_total (as bs : List Char) : lexLe as bs = true ∨ lexLe bs as = true := by
  induction as generalizing bs with
  | nil => left; rfl
  | cons a at' ih =>
    cases bs with
    | nil => right; rfl
    | cons b bt =>
      rcases Nat.lt_trichotomy a.toNat b.toNat with h | h | h
      · left
        simp [lexLe, h]
      · have h1 : ¬ a.toNat < b.toNat := by omega
        have h2 : ¬ b.toNat < a.toNat := by omega
        rcases ih bt with hh | hh
        · left
          simp [lexLe, h1, h2, hh]
        · right
          simp [lexLe, h1, h2, hh]
      · right
        simp [lexLe, h]

theorem lexLe_trans (as bs cs : List Char) (h1 : lexLe as bs = true)
    (h2 : lexLe bs cs = true) : lexLe as cs = true := by
  induction as generalizing bs cs with
  | nil => rfl
  | cons a at' ih =>
    cases bs with
    | nil => simp [lexLe] at h1
    | cons b bt =>
      cases cs with
      | nil => simp [lexLe] at h2
      | cons c ct =>
        simp only [lexLe] at h1 h2 ⊢
        by_cases hab : a.toNat < b.toNat
        · by_cases hbc : b.toNat < c.toNat
          · simp [show a.toNat < c.toNat from by omega]
          · by_cases hcb : c.toNat < b.toNat
            · simp [hbc, hcb] at h2
            · simp [show a.toNat < c.toNat from by omega]
        · by_cases hba : b.toNat < a.toNat
          · simp [hab, hba] at h1
          · have hab' : a.toNat = b.toNat := by omega
            by_cases hbc : b.toNat < c.toNat
            · simp [show a.toNat < c.toNat from by omega]
            · by_cases hcb : c.toNat < b.toNat
              · simp [hbc, hcb] at h2
              · have h1' : lexLe at' bt = true := by simpa [hab, hba] using h1
                have h2' : lexLe bt ct = true := by simpa [hbc, hcb] using h2
                simp [show ¬ a.toNat < c.toNat from by omega,
                  show ¬ c.toNat < a.toNat from by omega, ih bt ct h1' h2']

/-- C2: a directory entry is processed as an addon candidate iff it is a
directory whose name starts with neither `.` nor `_` and which contains
`router.py`; candidates are processed in code-point lexicographic order of
directory name; a non-candidate entry (such as `_hidden`) is never
imported. -/
theorem c2_addon_discovery (entries : List DirEntry)
    (hnd : (entries.map DirEntry.name).Nodup) :
    (∀ e, e ∈ discoverAddons entries ↔ e ∈ entries ∧ isCandidate e = true) ∧
    List.Pairwise entryLe (discoverAddons entries) ∧
    (∀ e ∈ entries, isCandidate e = false →
      moduleNameOf e ∉ importedModules entries) := by
  have hperm : List.Perm (entries.insertionSort entryLe) entries :=
    List.perm_insertionSort entryLe entries
  refine ⟨?_, ?_, ?_⟩
  · intro e
    constructor
    · intro h
      rcases List.mem_filter.mp h with ⟨hmem, hcand⟩
      exact ⟨hperm.mem_iff.mp hmem, by simpa using hcand⟩
    · intro ⟨hmem, hcand⟩
      exact List.mem_filter.mpr ⟨hperm.mem_iff.mpr hmem, by simpa using hcand⟩
  · have hsorted : List.Pairwise entryLe (entries.insertionSort entryLe) :=
      @List.sorted_insertionSort DirEntry entryLe _
        ⟨fun a b => lexLe_total a.name.data b.name.data⟩
        ⟨fun a b c => lexLe_trans a.name.data b.name.data c.name.data⟩ entries
    exact List.Pairwise.sublist (List.filter_sublist _) hsorted
  · intro e hmem hcand hmod
    rcases List.mem_map.mp hmod with ⟨f, hf, hfe⟩
    rcases List.mem_filter.mp hf with ⟨hfmem, hfcand⟩
    have hfmem' : f ∈ entries := hperm.mem_iff.mp hfmem
    have hname : f.name = e.name := by
      unfold moduleNameOf at hfe
      have h1 : "addons." ++ f.name = "addons." ++ e.name :=
        string_append_right_cancel hfe
      exact string_append_left_cancel h1
    have hef : f = e := List.inj_on_of_nodup_map hnd hfmem' hmem hname
    rw [hef] at hfcand
    rw [hcand] at hfcand
    cases hfcand

/-- Witness for C2: with children `c`, `_hidden`, `a`, `b` (the last
lacking `router.py`), only `a` and `c` are candidates, they are processed
in lexicographic order, and the `_hidden` module path is never imported. -/
theorem c2_addon_discovery_witness :
    (⟨"a", true, true⟩ : DirEntry) ∈ discoverAddons
      [⟨"c", true, true⟩, ⟨"_hidden", true, true⟩, ⟨"a", true, true⟩, ⟨"b", true, false⟩] ∧
    List.Pairwise entryLe (discoverAddons
      [⟨"c", true, true⟩, ⟨"_hidden", true, true⟩, ⟨"a", true, true⟩, ⟨"b", true, false⟩]) ∧
    moduleNameOf ⟨"_hidden", true, true⟩ ∉ importedModules
      [⟨"c", true, true⟩, ⟨"_hidden", true, true⟩, ⟨"a", true, true⟩, ⟨"b", true, false⟩] := by
  have h := c2_addon_discovery
    [⟨"c", true, true⟩, ⟨"_hidden", true, true⟩, ⟨"a", true, true⟩, ⟨"b", true, false⟩]
    (by decide)
  refine ⟨?_, h.2.1, ?_⟩
  · exact (h.1 ⟨"a", true, true⟩).mpr ⟨by decide, by decide⟩
  · exact h.2.2 ⟨"_hidden", true, true⟩ (by decide) (by decide)

/-! ## Claim C3 — per-addon failure isolation -/

theorem registerModules_foldl (mods : List String) (importer : String → ImportOutcome)
    (acc : List APIRoute × List String) :
    mods.foldl (fun acc m =>
        let r := includeRouterFromModule m (importer m)
        (acc.1 ++ r.1, acc.2 ++ r.2)) acc
      = (acc.1 ++ (registerModules mods importer).1,
         acc.2 ++ (registerModules mods importer).2) := by
  induction mods generalizing acc with
  | nil => simp [registerModules]
  | cons m t ih =>
    rw [List.foldl_cons, ih]
    have hmt : registerModules (m :: t) importer
        = ((includeRouterFromModule m (importer m)).1 ++ (registerModules t importer).1,
           (includeRouterFromModule m (importer m)).2 ++ (registerModules t importer).2) := by
      unfold registerModules
      rw [List.foldl_cons, ih]
      simp
      exact ⟨rfl, rfl⟩
    rw [hmt]
    simp [List.append_assoc]

theorem includeRouter_fst (m : String) (o : ImportOutcome) :
    (includeRouterFromModule m o).1 = (wellShapedRoutes o).getD [] := by
  cases o with
  | loaded ro =>
    cases ro with
    | none => rfl
    | some r =>
      by_cases hr : r.isAPIRouter = true
      · simp [includeRouterFromModule, wellShapedRoutes, hr]
      · simp [includeRouterFromModule, wellShapedRoutes, hr]
  | moduleNotFound => rfl
  | attributeError => rfl
  | otherError => rfl

/-- C3 counterexample: a candidate addon whose module imports but has no
`router` attribute falls through the `hasattr` guard: it is skipped, and
no reason is logged (the `except AttributeError` branch is unreachable on
this path), contradicting the claim that a missing `router` attribute
causes the addon to be skipped with a logged reason. -/
theorem c3_counterexample :
    (includeRouterFromModule "addons.a.router" (.loaded none)).1 = [] ∧
    (includeRouterFromModule "addons.a.router" (.loaded none)).2 = [] := by
  exact ⟨rfl, rfl⟩

/-- C3 (amended): every failing addon is skipped and discovery of the
remaining addons proceeds unchanged; exactly the modules exposing a
correctly shaped router contribute their routes; a missing module, a
wrong-shaped router, and any other import exception are logged, while a
module without a `router` attribute is skipped silently. -/
theorem c3_addon_isolation (importer : String → ImportOutcome) :
    (∀ (xs ys : List String) (m : String),
      wellShapedRoutes (importer m) = none →
      (registerModules (xs ++ m :: ys) importer).1
        = (registerModules (xs ++ ys) importer).1) ∧
    (∀ (mods : List String) (r : APIRoute),
      r ∈ (registerModules mods importer).1 ↔
        ∃ m ∈ mods, ∃ rs, wellShapedRoutes (importer m) = some rs ∧ r ∈ rs) ∧
    (∀ m : String,
      (importer m = .moduleNotFound ∨ importer m = .attributeError ∨
        importer m = .otherError ∨
        (∃ ro, importer m = .loaded (some ro) ∧ ro.isAPIRouter = false)) →
      (includeRouterFromModule m (importer m)).2 ≠ []) ∧
    (∀ m : String, importer m = .loaded none →
      (includeRouterFromModule m (importer m)).2 = []) := by
  have hcons : ∀ (m : String) (t : List String),
      (registerModules (m :: t) importer).1
        = (includeRouterFromModule m (importer m)).1 ++ (registerModules t importer).1 := by
    intro m t
    unfold registerModules
    rw [List.foldl_cons, registerModules_foldl]
    simp [registerModules]
  refine ⟨?_, ?_, ?_, ?_⟩
  · intro xs ys m hskip
    have hrm : (includeRouterFromModule m (importer m)).1 = [] := by
      rw [includeRouter_fst, hskip]
      rfl
    induction xs with
    | nil =>
      simp only [List.nil_append]
      rw [hcons m ys, hrm]
      rfl
    | cons x xt ih =>
      rw [List.cons_append, List.cons_append, hcons, hcons, ih]
  · intro mods r
    induction mods with
    | nil =>
      simp [registerModules]
    | cons m t ih =>
      rw [hcons, List.mem_append]
      constructor
      · intro h
        rcases h with h | h
        · cases hw : wellShapedRoutes (importer m) with
          | none =>
            rw [includeRouter_fst, hw] at h
            cases h
          | some rs =>
            rw [includeRouter_fst, hw] at h
            exact ⟨m, List.mem_cons_self _ _, rs, hw, h⟩
        · rcases ih.mp h with ⟨m', hm', rs, hw, hr⟩
          exact ⟨m', List.mem_cons_of_mem _ hm', rs, hw, hr⟩
      · intro ⟨m', hm', rs, hw, hr⟩
        rcases List.mem_cons.mp hm' with rfl | hm'
        · left
          rw [includeRouter_fst, hw]
          exact hr
        · right
          exact ih.mpr ⟨m', hm', rs, hw, hr⟩
  · intro m h
    rcases h with h | h | h | ⟨ro, h, hro⟩ <;> rw [h]
    · simp [includeRouterFromModule]
    · simp [includeRouterFromModule]
    · simp [includeRouterFromModule]
    · simp [includeRouterFromModule, hro]
  · intro m h
    rw [h]
    rfl

/-- Witness for C3 (amended): with four modules — one well-shaped, one
missing, one wrong-shaped, one without a `router` attribute — exactly the
well-shaped module contributes its route, removing a failing module
changes nothing, the failures are logged except the attribute-less one. -/
theorem c3_addon_isolation_witness :
    (registerModules ["addons.a.router", "addons.c.router"]
        (fun m => if m = "addons.a.router"
          then .loaded (some ⟨true, [⟨"x", "/x", ["GET"], none⟩]⟩)
          else .loaded (some ⟨false, [⟨"z", "/z", ["GET"], none⟩]⟩))).1
      = [⟨"x", "/x", ["GET"], none⟩] ∧
    (includeRouterFromModule "addons.b.router" .moduleNotFound).2 ≠ [] ∧
    (includeRouterFromModule "addons.d.router" (.loaded none)).2 = [] := by
  refine ⟨?_, ?_, ?_⟩
  · have h := (c3_addon_isolation (fun m => if m = "addons.a.router"
      then .loaded (some ⟨true, [⟨"x", "/x", ["GET"], none⟩]⟩)
      else .loaded (some ⟨false, [⟨"z", "/z", ["GET"], none⟩]⟩))).1
      ["addons.a.router"] [] "addons.c.router" (by decide)
    rw [show (["addons.a.router", "addons.c.router"] : List String)
      = ["addons.a.router"] ++ "addons.c.router" :: [] from rfl, h]
    decide
  · exact (c3_addon_isolation (fun _ => .moduleNotFound)).2.2.1
      "addons.b.router" (Or.inl rfl)
  · exact (c3_addon_isolation (fun _ => .loaded none)).2.2.2
      "addons.d.router" rfl

/-! ## Claim C10 — frame property of the CLI-argument update -/

theorem alookup_append_ne (st : Store) {sec sec' : String} (its : Options)
    (h : sec' ≠ sec) : alookup sec' (st ++ [(sec, its)]) = alookup sec' st := by
  induction st with
  | nil =>
    have h' : sec ≠ sec' := fun hh => h hh.symm
    simp [alookup, h']
  | cons p t ih =>
    by_cases hp : p.1 = sec'
    · simp [alookup, hp]
    · simp only [List.cons_append, alookup, if_neg hp]
      exact ih

theorem getOpt_ensure_server (st : Store) (sec q : String) :
    getOpt (if hasSection st "server" then st else st ++ [("server", [])]) sec q
      = getOpt st sec q := by
  by_cases h : hasSection st "server"
  · rw [if_pos h]
  · rw [if_neg h]
    unfold hasSection at h
    cases hs : alookup "server" st with
    | some its =>
      rw [hs] at h
      simp at h
    | none =>
      by_cases hsec : sec = "server"
      · subst hsec
        unfold getOpt
        rw [hs, alookup_self_append st "server" [] hs]
        rfl
      · unfold getOpt
        rw [alookup_append_ne st [] hsec]

theorem foldl_args_ne_sec (l : List (String × String)) (st : Store)
    (args : String → Option String) {sec : String} (q : String) (h : sec ≠ "server") :
    getOpt (l.foldl (fun acc m =>
        match args m.1 with
        | some v => setOpt acc "server" m.2 v
        | none => acc) st) sec q = getOpt st sec q := by
  induction l generalizing st with
  | nil => rfl
  | cons m t ih =>
    rw [List.foldl_cons]
    cases hm : args m.1 with
    | some v =>
      rw [ih]
      exact getOpt_setOpt_ne_sec st m.2 q v h
    | none => rw [ih]

theorem foldl_args_ne_key (l : List (String × String)) (st : Store)
    (args : String → Option String) (q : String)
    (h : ∀ m ∈ l, (args m.1).isSome → optionxform q ≠ optionxform m.2) :
    getOpt (l.foldl (fun acc m =>
        match args m.1 with
        | some v => setOpt acc "server" m.2 v
        | none => acc) st) "server" q = getOpt st "server" q := by
  induction l generalizing st with
  | nil => rfl
  | cons m t ih =>
    rw [List.foldl_cons]
    have ht : ∀ m' ∈ t, (args m'.1).isSome → optionxform q ≠ optionxform m'.2 :=
      fun m' hm' => h m' (List.mem_cons_of_mem m hm')
    cases hm : args m.1 with
    | some v =>
      rw [ih _ ht]
      exact getOpt_setOpt_ne_key st "server" m.2 q v
        (h m (List.mem_cons_self m t) (by rw [hm]; rfl))
    | none => rw [ih _ ht]

theorem foldl_args_set (l : List (String × String)) (st : Store)
    (args : String → Option String) (m : String × String) (hm : m ∈ l)
    (hnd : (l.map (fun p => optionxform p.2)).Nodup) (v : String)
    (hv : args m.1 = some v) :
    getOpt (l.foldl (fun acc p =>
        match args p.1 with
        | some w => setOpt acc "server" p.2 w
        | none => acc) st) "server" m.2 = some v := by
  induction l generalizing st with
  | nil => cases hm
  | cons p t ih =>
    rw [List.foldl_cons]
    simp only [List.map_cons, List.nodup_cons] at hnd
    rcases List.mem_cons.mp hm with rfl | hmt
    · rw [hv]
      have ht : ∀ p' ∈ t, (args p'.1).isSome → optionxform m.2 ≠ optionxform p'.2 := by
        intro p' hp' _
        intro he
        exact hnd.1 (he ▸ List.mem_map_of_mem (fun p => optionxform p.2) hp')
      rw [foldl_args_ne_key t _ args m.2 ht]
      exact getOpt_setOpt_self st "server" m.2 m.2 v rfl
    · cases hp : args p.1 with
      | some w => exact ih _ hmt hnd.2
      | none => exact ih _ hmt hnd.2

/-- C10: updating the store from CLI arguments modifies only the five
mapped `server` options, and only those whose argument carries a
non-`None` value: every lookup outside the `server` section, and every
`server` lookup whose normalized key is not among the set arguments, is
unchanged; a mapped argument that is present lands in its `server`
option. -/
theorem c10_update_frame (st : Store) (args : String → Option String) :
    (∀ sec q, sec ≠ "server" →
      getOpt (updateFromArgs st args) sec q = getOpt st sec q) ∧
    (∀ q, (∀ m ∈ argMapping, (args m.1).isSome → optionxform q ≠ optionxform m.2) →
      getOpt (updateFromArgs st args) "server" q = getOpt st "server" q) ∧
    (∀ m ∈ argMapping, ∀ v, args m.1 = some v →
      getOpt (updateFromArgs st args) "server" m.2 = some v) := by
  refine ⟨?_, ?_, ?_⟩
  · intro sec q hsec
    unfold updateFromArgs
    rw [foldl_args_ne_sec argMapping _ args q hsec, getOpt_ensure_server st sec q]
  · intro q hq
    unfold updateFromArgs
    rw [foldl_args_ne_key argMapping _ args q hq, getOpt_ensure_server st "server" q]
  · intro m hm v hv
    unfold updateFromArgs
    exact foldl_args_set argMapping _ args m hm (by decide) v hv

/-- Witness for C10: setting only the port leaves the database URL, the
server host, and an unrelated pre-existing value unchanged, and sets the
port. -/
theorem c10_update_frame_witness :
    getOpt (updateFromArgs DEFAULTS (fun k => if k = "port" then some "9000" else none))
      "database" "url" = getOpt DEFAULTS "database" "url" ∧
    getOpt (updateFromArgs DEFAULTS (fun k => if k = "port" then some "9000" else none))
      "server" "host" = getOpt DEFAULTS "server" "host" ∧
    getOpt (updateFromArgs DEFAULTS (fun k => if k = "port" then some "9000" else none))
      "server" "port" = some "9000" := by
  refine ⟨?_, ?_, ?_⟩
  · exact (c10_update_frame DEFAULTS _).1 "database" "url" (by decide)
  · exact (c10_update_frame DEFAULTS _).2.1 "host" (by decide)
  · exact (c10_update_frame DEFAULTS _).2.2 ("port", "port") (by decide) "9000" (by decide)

/-! ## Claim C5 — environment presence overrides file and default -/

theorem getOpt_loadFromEnv_no_match (st : Store) (env : Env) (k : String)
    (hk : lowerStr k = k)
    (h : ∀ p ∈ env, strStartsWith p.1 envPref = true →
      lowerStr (strDropChars p.1 envPref.data.length) ≠ k) :
    getOpt (loadFromEnv st env) "server" k = getOpt st "server" k := by
  induction env generalizing st with
  | nil => rfl
  | cons p t ih =>
    have hstep : loadFromEnv st (p :: t)
        = loadFromEnv (if strStartsWith p.1 envPref then
            setOpt st "server" (lowerStr (strDropChars p.1 envPref.data.length)) p.2
          else st) t := rfl
    rw [hstep]
    have ht : ∀ q ∈ t, strStartsWith q.1 envPref = true →
        lowerStr (strDropChars q.1 envPref.data.length) ≠ k :=
      fun q hq => h q (List.mem_cons_of_mem p hq)
    by_cases hs : strStartsWith p.1 envPref = true
    · rw [if_pos hs, ih _ ht]
      apply getOpt_setOpt_ne_key
      show lowerStr k ≠ lowerStr (lowerStr (strDropChars p.1 envPref.data.length))
      rw [hk, lowerStr_idem]
      intro he
      exact h p (List.mem_cons_self p t) hs he.symm
    · rw [if_neg hs, ih _ ht]

theorem getOpt_loadFromEnv_target (st : Store) (env : Env) (k v : String)
    (hk : lowerStr k = k)
    (hmem : (envPref ++ upperStr k, v) ∈ env)
    (huniq : ∀ p ∈ env, strStartsWith p.1 envPref = true →
      lowerStr (strDropChars p.1 envPref.data.length) = k →
      p = (envPref ++ upperStr k, v)) :
    getOpt (loadFromEnv st env) "server" k = some v := by
  have htargetS : strStartsWith (envPref ++ upperStr k) envPref = true :=
    strStartsWith_append _ _
  have htargetK : lowerStr (strDropChars (envPref ++ upperStr k) envPref.data.length) = k := by
    rw [strDropChars_append]
    exact lowerStr_upperStr k hk
  induction env generalizing st with
  | nil => cases hmem
  | cons p t ih =>
    have hstep : loadFromEnv st (p :: t)
        = loadFromEnv (if strStartsWith p.1 envPref then
            setOpt st "server" (lowerStr (strDropChars p.1 envPref.data.length)) p.2
          else st) t := rfl
    rw [hstep]
    have huniq' : ∀ q ∈ t, strStartsWith q.1 envPref = true →
        lowerStr (strDropChars q.1 envPref.data.length) = k →
        q = (envPref ++ upperStr k, v) :=
      fun q hq => huniq q (List.mem_cons_of_mem p hq)
    by_cases hrel : strStartsWith p.1 envPref = true ∧
        lowerStr (strDropChars p.1 envPref.data.length) = k
    · have hp : p = (envPref ++ upperStr k, v) := huniq p (List.mem_cons_self p t) hrel.1 hrel.2
      by_cases hmt : (envPref ++ upperStr k, v) ∈ t
      · exact ih _ hmt huniq'
      · have hnone : ∀ q ∈ t, strStartsWith q.1 envPref = true →
            lowerStr (strDropChars q.1 envPref.data.length) ≠ k := by
          intro q hq hqs hqk
          exact hmt (huniq' q hq hqs hqk ▸ hq)
        rw [if_pos hrel.1, getOpt_loadFromEnv_no_match _ t k hk hnone, hrel.2]
        have hv : p.2 = v := by rw [hp]
        rw [hv]
        exact getOpt_setOpt_self st "server" k k v rfl
    · have hne : p ≠ (envPref ++ upperStr k, v) := by
        intro he
        rw [he] at hrel
        exact hrel ⟨htargetS, htargetK⟩
      have hmt : (envPref ++ upperStr k, v) ∈ t := by
        rcases List.mem_cons.mp hmem with he | hmt
        · exact absurd he.symm hne
        · exact hmt
      exact ih _ hmt huniq'

/-- C5: for every server key set through its prefixed, upper-cased
environment variable, the value read from the constructed store equals the
environment value, whatever the built-in default and whatever a config
file provides for that key: environment presence overrides file and
default. -/
theorem c5_env_override (file : Option Store) (env : Env) (k v : String)
    (hk : lowerStr k = k)
    (hmem : (envPref ++ upperStr k, v) ∈ env)
    (huniq : ∀ p ∈ env, strStartsWith p.1 envPref = true →
      lowerStr (strDropChars p.1 envPref.data.length) = k →
      p = (envPref ++ upperStr k, v)) :
    getOpt (initConfig file env) "server" k = some v :=
  getOpt_loadFromEnv_target (loadFromFile DEFAULTS file) env k v hk hmem huniq

/-- Witness for C5: with a config file that sets `host` and the variable
`TEMPO_SERVER_HOST` present, the environment value wins over both the file
value and the built-in default. -/
theorem c5_env_override_witness :
    getOpt (initConfig (some [("server", [("host", "from-file")])])
      [("TEMPO_SERVER_HOST", "1.2.3.4")]) "server" "host" = some "1.2.3.4" :=
  c5_env_override (some [("server", [("host", "from-file")])])
    [("TEMPO_SERVER_HOST", "1.2.3.4")] "host" "1.2.3.4"
    (by decide) (by decide) (by decide)

/-! ## Claim C4 — export then rebuild from the environment -/

theorem alookup_append_none {α : Type} {q : String} {e : List (String × α)}
    (he : alookup q e = none) {p : String × α} (hp : p.1 ≠ q) :
    alookup q (e ++ [p]) = none := by
  induction e with
  | nil => simp [alookup, hp]
  | cons r t ih =>
    by_cases hr : r.1 = q
    · simp [alookup, hr] at he
    · simp only [List.cons_append, alookup, if_neg hr] at he ⊢
      exact ih he

theorem foldl_aset_fresh (xs : Options) (e : Env)
    (h1 : ∀ p ∈ xs, alookup (envPref ++ upperStr p.1) e = none)
    (h2 : (xs.map (fun p => envPref ++ upperStr p.1)).Nodup) :
    xs.foldl (fun acc kv => aset (envPref ++ upperStr kv.1) kv.2 acc) e
      = e ++ xs.map (fun p => (envPref ++ upperStr p.1, p.2)) := by
  induction xs generalizing e with
  | nil => simp
  | cons p t ih =>
    rw [List.foldl_cons, aset_of_alookup_none (h1 p (List.mem_cons_self p t)) p.2]
    simp only [List.map_cons, List.nodup_cons] at h2
    have h1' : ∀ q ∈ t, alookup (envPref ++ upperStr q.1)
        (e ++ [(envPref ++ upperStr p.1, p.2)]) = none := by
      intro q hq
      apply alookup_append_none (h1 q (List.mem_cons_of_mem p hq))
      intro he
      apply h2.1
      rw [show (envPref ++ upperStr p.1) = envPref ++ upperStr q.1 from he]
      exact List.mem_map_of_mem _ hq
    rw [ih _ h1' h2.2, List.append_assoc]
    rfl

theorem exportToEnv_eq (orig : Store) (env0 : Env) (items : Options)
    (hsrv : alookup "server" orig = some items)
    (hlow : ∀ p ∈ items, lowerStr p.1 = p.1)
    (hnd : (items.map Prod.fst).Nodup)
    (henv : ∀ p ∈ env0, strStartsWith p.1 envPref = false) :
    exportToEnv orig env0
      = env0 ++ items.map (fun p => (envPref ++ upperStr p.1, p.2)) := by
  unfold exportToEnv
  have hhas : hasSection orig "server" = true := by
    unfold hasSection
    rw [hsrv]
    rfl
  rw [if_pos hhas]
  unfold itemsOf
  rw [hsrv]
  simp only [Option.getD_some]
  apply foldl_aset_fresh
  · intro p hp
    apply alookup_eq_none
    intro r hr he
    have hh := henv r hr
    rw [he, strStartsWith_append] at hh
    cases hh
  · have hmm : items.map (fun p => envPref ++ upperStr p.1)
        = (items.map Prod.fst).map (fun x => envPref ++ upperStr x) := by
      rw [List.map_map]
      rfl
    rw [hmm]
    apply List.Nodup.map_on ?_ hnd
    intro x hx y hy he
    have hxl : lowerStr x = x := by
      rcases List.mem_map.mp hx with ⟨p, hp, rfl⟩
      exact hlow p hp
    have hyl : lowerStr y = y := by
      rcases List.mem_map.mp hy with ⟨p, hp, rfl⟩
      exact hlow p hp
    exact upperStr_inj hxl hyl (string_append_left_cancel he)

theorem loadFromEnv_append (st : Store) (a b : Env) :
    loadFromEnv st (a ++ b) = loadFromEnv (loadFromEnv st a) b := by
  unfold loadFromEnv
  rw [List.foldl_append]

theorem loadFromEnv_skips (st : Store) (env : Env)
    (h : ∀ p ∈ env, strStartsWith p.1 envPref = false) :
    loadFromEnv st env = st := by
  induction env with
  | nil => rfl
  | cons p t ih =>
    have hstep : loadFromEnv st (p :: t)
        = loadFromEnv (if strStartsWith p.1 envPref then
            setOpt st "server" (lowerStr (strDropChars p.1 envPref.data.length)) p.2
          else st) t := rfl
    rw [hstep, if_neg (by rw [h p (List.mem_cons_self p t)]; exact Bool.false_ne_true)]
    exact ih (fun q hq => h q (List.mem_cons_of_mem p hq))

theorem loadFromEnv_exported (st : Store) (items : Options)
    (hlow : ∀ p ∈ items, lowerStr p.1 = p.1) :
    loadFromEnv st (items.map (fun p => (envPref ++ upperStr p.1, p.2)))
      = items.foldl (fun a kv => setOpt a "server" kv.1 kv.2) st := by
  induction items generalizing st with
  | nil => rfl
  | cons p t ih =>
    have hlow' : ∀ q ∈ t, lowerStr q.1 = q.1 :=
      fun q hq => hlow q (List.mem_cons_of_mem p hq)
    have hplow := hlow p (List.mem_cons_self p t)
    have hstep : loadFromEnv st ((p :: t).map (fun r => (envPref ++ upperStr r.1, r.2)))
        = loadFromEnv (if strStartsWith (envPref ++ upperStr p.1) envPref then
            setOpt st "server"
              (lowerStr (strDropChars (envPref ++ upperStr p.1) envPref.data.length)) p.2
          else st) (t.map (fun r => (envPref ++ upperStr r.1, r.2))) := rfl
    rw [hstep, if_pos (strStartsWith_append _ _), strDropChars_append,
      lowerStr_upperStr p.1 hplow, ih _ hlow', List.foldl_cons]

theorem getOpt_foldl_setOpt (items : Options) (st : Store) (k : String)
    (hlow : ∀ p ∈ items, lowerStr p.1 = p.1)
    (hnd : (items.map Prod.fst).Nodup) :
    getOpt (items.foldl (fun a kv => setOpt a "server" kv.1 kv.2) st) "server" k
      = (match alookup (lowerStr k) items with
         | some v => some v
         | none => getOpt st "server" k) := by
  induction items generalizing st with
  | nil => rfl
  | cons p t ih =>
    simp only [List.map_cons, List.nodup_cons] at hnd
    have hlow' : ∀ q ∈ t, lowerStr q.1 = q.1 :=
      fun q hq => hlow q (List.mem_cons_of_mem p hq)
    rw [List.foldl_cons, ih _ hlow' hnd.2]
    by_cases hpk : p.1 = lowerStr k
    · have htnone : alookup (lowerStr k) t = none := by
        apply alookup_eq_none
        intro q hq he
        apply hnd.1
        rw [hpk, ← he]
        exact List.mem_map_of_mem Prod.fst hq
      have hl : alookup (lowerStr k) (p :: t) = some p.2 := by
        simp [alookup, hpk]
      rw [htnone, hl]
      apply getOpt_setOpt_self
      show lowerStr k = lowerStr p.1
      rw [hlow p (List.mem_cons_self p t), hpk]
    · have hl : alookup (lowerStr k) (p :: t) = alookup (lowerStr k) t := by
        simp [alookup, hpk]
      rw [hl]
      cases halk : alookup (lowerStr k) t with
      | some v => rfl
      | none =>
        apply getOpt_setOpt_ne_key
        show lowerStr k ≠ lowerStr p.1
        rw [hlow p (List.mem_cons_self p t)]
        exact fun he => hpk he.symm

theorem getOpt_loadFromEnv_ne_sec (st : Store) (env : Env) {sec : String} (q : String)
    (h : sec ≠ "server") :
    getOpt (loadFromEnv st env) sec q = getOpt st sec q := by
  induction env generalizing st with
  | nil => rfl
  | cons p t ih =>
    have hstep : loadFromEnv st (p :: t)
        = loadFromEnv (if strStartsWith p.1 envPref then
            setOpt st "server" (lowerStr (strDropChars p.1 envPref.data.length)) p.2
          else st) t := rfl
    rw [hstep]
    by_cases hs : strStartsWith p.1 envPref = true
    · rw [if_pos hs, ih _]
      exact getOpt_setOpt_ne_sec st _ q _ h
    · rw [if_neg hs, ih _]

/-- C4 counterexample to the literal claim: for the original store built
with no file and an empty environment, `url` is a key of its non-server
section `database`, and after `export()` and a fresh rebuild from the
resulting environment with no file, that key is still visible in the
fresh store (it resolves from the built-in defaults), so some key of a
non-server section of the original store is visible in the fresh one. -/
theorem c4_counterexample :
    getOpt (initConfig none []) "database" "url" = some "" ∧
    getOpt (initConfig none (exportToEnv (initConfig none []) []))
      "database" "url" = some "" := by
  exact ⟨by decide, by decide⟩

/-- C4 (amended): export then rebuilding a fresh store from the resulting
environment with no config file reproduces exactly the server-section
key/value pairs of the exported store, and every non-server section of the
fresh store holds exactly the built-in defaults — no non-server value of
the original store is transmitted (a non-server key may still appear in
the fresh store when it is a built-in default). -/
theorem c4_export_rebuild (orig : Store) (env0 : Env) (items : Options)
    (hsrv : alookup "server" orig = some items)
    (hlow : ∀ p ∈ items, lowerStr p.1 = p.1)
    (hnd : (items.map Prod.fst).Nodup)
    (hdef : ∀ q, (alookup q serverDefaults).isSome → (alookup q items).isSome)
    (henv : ∀ p ∈ env0, strStartsWith p.1 envPref = false) :
    (∀ k, getOpt (initConfig none (exportToEnv orig env0)) "server" k
        = getOpt orig "server" k) ∧
    (∀ sec, sec ≠ "server" → ∀ k,
      getOpt (initConfig none (exportToEnv orig env0)) sec k
        = getOpt DEFAULTS sec k) := by
  have hinit : initConfig none (exportToEnv orig env0)
      = loadFromEnv DEFAULTS (exportToEnv orig env0) := rfl
  have hexp := exportToEnv_eq orig env0 items hsrv hlow hnd henv
  constructor
  · intro k
    rw [hinit, hexp, loadFromEnv_append, loadFromEnv_skips DEFAULTS env0 henv,
      loadFromEnv_exported DEFAULTS items hlow,
      getOpt_foldl_setOpt items DEFAULTS k hlow hnd]
    have horig : getOpt orig "server" k = alookup (lowerStr k) items := by
      unfold getOpt
      rw [hsrv]
      rfl
    rw [horig]
    cases halk : alookup (lowerStr k) items with
    | some v => rfl
    | none =>
      show getOpt DEFAULTS "server" k = none
      cases hd : getOpt DEFAULTS "server" k with
      | none => rfl
      | some v =>
        exfalso
        have hds : getOpt DEFAULTS "server" k = alookup (lowerStr k) serverDefaults := rfl
        rw [hds] at hd
        have h2 := hdef (lowerStr k) (by rw [hd]; rfl)
        rw [halk] at h2
        cases h2
  · intro sec hsec k
    rw [hinit]
    exact getOpt_loadFromEnv_ne_sec DEFAULTS _ k hsec

/-- Witness for C4 (amended) at the default store with a clean
environment: the rebuilt store agrees with the original on a server key
and holds the default for the database URL. -/
theorem c4_export_rebuild_witness :
    getOpt (initConfig none (exportToEnv DEFAULTS [])) "server" "host"
      = getOpt DEFAULTS "server" "host" ∧
    getOpt (initConfig none (exportToEnv DEFAULTS [])) "database" "url"
      = getOpt DEFAULTS "database" "url" := by
  have h := c4_export_rebuild DEFAULTS [] serverDefaults (by decide) (by decide)
    (by decide) (fun q hq => hq) (fun p hp => absurd hp (List.not_mem_nil p))
  exact ⟨h.1 "host", h.2 "database" (by decide) "url"⟩

end Tempo
